import Mathlib

/-!
# Verification of `cmd/warmup.go` (JuiceFS warmup command)

Shallow embedding of the warmup command: the request-frame encoder
(`sendCommand`), the mount-root resolution walk, and the batching loop of
`warmup`, together with theorems settling the specification claims.

Paths and wire data are modelled as lists of bytes (`List Nat`, each entry
intended `< 256`); machine-integer truncation (`uint32`, `uint16`) is made
explicit with `% 2 ^ 32` / `% 2 ^ 16`.
-/

namespace Warmup

/-- A byte string: Go `string` / `[]byte`, as a list of byte values. -/
abbrev Bytes := List Nat

/-- Byte value of the separator `'\n'` used by `strings.Join(batch, "\n")`. -/
def nlByte : Nat := 10

/-- UTF-8 bytes of an ASCII Lean string literal (convenience for examples;
all concrete paths in the claims are ASCII, where code points and UTF-8
bytes coincide). -/
def strBytes (s : String) : Bytes := s.data.map Char.toNat

/-- Go `strings.Join(batch, "\n")` on byte strings. -/
def joinNl : List Bytes → Bytes
  | [] => []
  | [b] => b
  | b :: b2 :: bs => b ++ nlByte :: joinNl (b2 :: bs)

/-- Go `strings.Split(s, "\n")` on byte strings: splitting the empty string
yields one empty field, matching `strings.Split("", "\n") == [""]`. -/
def splitNl : Bytes → List Bytes
  | [] => [[]]
  | b :: rest =>
    if b = nlByte then [] :: splitNl rest
    else
      match splitNl rest with
      | [] => [[b]]
      | r :: rs => (b :: r) :: rs

/-- Modelled from the spec: `utils.Buffer.Put32` is absent from `src/`; the
spec fixes the wire format as little-endian, so a 32-bit field is its four
little-endian bytes. -/
def le32 (n : Nat) : Bytes :=
  [n % 256, n / 256 % 256, n / 2 ^ 16 % 256, n / 2 ^ 24 % 256]

/-- Modelled from the spec: `utils.Buffer.Put16`, little-endian 16-bit field. -/
def le16 (n : Nat) : Bytes := [n % 256, n / 256 % 256]

/-- Little-endian decoder for a byte sequence (inverse of `le32`/`le16` on
values in range); used to state what the frame's integer fields hold. -/
def decLE : Bytes → Nat
  | [] => 0
  | b :: rest => b + 256 * decLE rest

/-- Modelled from the spec: the `meta.FillCache` command code, an opaque
32-bit constant from the meta package (its numeric value is not fixed by the
spec and no claim depends on it). -/
def FillCache : Nat := 1017

/-- The request frame built by `sendCommand` (`warmup.go:33-45`):
command code, payload length `4 + 3 + len(paths)`, path-block length,
the joined path block, `uint16(threads)`, and the background flag byte.
The two 32-bit length fields carry Go `uint32` values, hence `% 2 ^ 32`;
`uint16(threads)` is `threads % 2 ^ 16`. -/
def sendCommandFrame (batch : List Bytes) (count : Nat) (threads : Nat)
    (background : Bool) : Bytes :=
  let paths := joinNl (batch.take count)
  le32 FillCache ++
    le32 ((4 + 3 + paths.length) % 2 ^ 32) ++
    le32 (paths.length % 2 ^ 32) ++
    paths ++
    le16 (threads % 2 ^ 16) ++
    [if background then 1 else 0]

/-- One operation issued on the control-file channel by `sendCommand`. -/
inductive ChanOp where
  | write (frame : Bytes)
  | read
deriving DecidableEq

/-- Outcome of one `sendCommand` call: success, or one of the fatal exits
(`logger.Fatalf`) taken at `warmup.go:47`, `warmup.go:55`, `warmup.go:58`. -/
inductive SendResult where
  | success
  | writeFatal
  | readFatal
  | remoteFatal (code : Nat)
deriving DecidableEq

/-- Response behaviour of `sendCommand` (`warmup.go:46-59`) after the frame
is built.  The channel is external, so its behaviour is an input:
`writeOk` tells whether `cf.Write` succeeds, and `readResult` is what a
1-byte `cf.Read` would return (`none` for an I/O error or short read,
`some b` for a successfully read status byte `b`).  The result pairs the
list of channel operations actually issued with the call's outcome. -/
def sendCommandEffect (frame : Bytes) (writeOk : Bool) (background : Bool)
    (readResult : Option Nat) : List ChanOp × SendResult :=
  if writeOk = false then ([.write frame], .writeFatal)
  else if background then ([.write frame], .success)
  else
    match readResult with
    | none => ([.write frame, .read], .readFatal)
    | some b =>
      ([.write frame, .read], if b = 0 then .success else .remoteFatal b)

/-- `const batchMax = 10240` (`warmup.go:30`). -/
def batchMax : Nat := 10240

/-- The batching loop of `warmup` (`warmup.go:127-144`), with the batch
capacity `K` a parameter (the program instantiates it with `batchMax`).
`batch` is the current partially-filled batch; a path with prefix `mp`
is stripped (`path[len(mp):]`) and appended, a batch is flushed as soon
as it holds `K` entries, and a non-empty final batch is flushed after the
loop.  Returns the list of flushed batches in send order. -/
def warmupGo (K : Nat) (mp : Bytes) : List Bytes → List Bytes → List (List Bytes)
  | [], batch => if 0 < batch.length then [batch] else []
  | p :: ps, batch =>
    if mp.isPrefixOf p then
      let b := batch ++ [p.drop mp.length]
      if K ≤ b.length then b :: warmupGo K mp ps []
      else warmupGo K mp ps b
    else warmupGo K mp ps batch

/-- The batches sent for a path list, starting from an empty batch. -/
def sentBatches (K : Nat) (mp : Bytes) (paths : List Bytes) : List (List Bytes) :=
  warmupGo K mp paths []

/-- Paths skipped with `logger.Warnf` (`warmup.go:132`): those not under
the mount point. -/
def skippedPaths (mp : Bytes) (paths : List Bytes) : List Bytes :=
  paths.filter fun p => !(mp.isPrefixOf p)

/-- Total count reported by the progress bar: `bar.IncrBy(index)` after each
send, i.e. the sum of the sizes of the sent batches. -/
def warmedCount (K : Nat) (mp : Bytes) (paths : List Bytes) : Nat :=
  ((sentBatches K mp paths).map List.length).sum

/-- An absolute directory path as its components listed deepest-first:
`/a/b/c` is `[c, b, a]` and the filesystem root `/` is `[]`.  In this
representation Go's `filepath.Dir` on a clean absolute path is `List.tail`. -/
abbrev RevPath := List Bytes

/-- The fatal exits of the mount-resolution phase of `warmup`
(`warmup.go:87-112`). -/
inductive WarmupError where
  | absError
  | statError
  | inodeError (p : RevPath)
  | notMounted
deriving DecidableEq

/-- The ancestor walk `for ; mp != "/"; mp = filepath.Dir(mp)`
(`warmup.go:101-112`): query the candidate's inode via the external
collaborator `g` (`utils.GetFileInode`); a lookup error is fatal, inode 1
ends the walk with that candidate as mount root, otherwise move to the
parent.  Reaching `/` (the empty `RevPath`) without a hit is the
"not inside JuiceFS" fatal error; `/` itself is never queried. -/
def mountWalk (g : RevPath → Option Nat) : RevPath → Except WarmupError RevPath
  | [] => .error .notMounted
  | c :: rest =>
    match g (c :: rest) with
    | none => .error (.inodeError (c :: rest))
    | some i => if i = 1 then .ok (c :: rest) else mountWalk g rest

/-- The external filesystem collaborators used by `warmup`:
`absOf` is `filepath.Abs` composed with parsing into components (`none` on
failure), `isDir` is `os.Stat(..).IsDir()` (`none` on stat failure), and
`getInode` is `utils.GetFileInode`. -/
structure Oracle where
  absOf : Bytes → Option RevPath
  isDir : RevPath → Option Bool
  getInode : RevPath → Option Nat

/-- Mount-point resolution (`warmup.go:87-112`): make the first path
absolute (fatal on failure), stat it (fatal on failure), start from it if
it is a directory and from its parent otherwise, then run the ancestor
walk. -/
def resolveMountRoot (o : Oracle) (first : Bytes) : Except WarmupError RevPath :=
  match o.absOf first with
  | none => .error .absError
  | some a =>
    match o.isDir a with
    | none => .error .statError
    | some d => mountWalk o.getInode (if d then a else a.tail)

/-- Render a `RevPath` back to the byte string `warmup` keeps in `mp`:
`[c, b, a]` becomes `/a/b/c`. -/
def renderPath (r : RevPath) : Bytes :=
  r.reverse.foldl (fun acc c => acc ++ 47 :: c) []

/-- Go `unicode.IsSpace` on the ASCII bytes `strings.TrimSpace` can trim in
a path list file: `'\t'`, `'\n'`, `'\v'`, `'\f'`, `'\r'`, `' '`. -/
def isSpaceByte (b : Nat) : Bool :=
  b = 9 || b = 10 || b = 11 || b = 12 || b = 13 || b = 32

/-- Go `strings.TrimSpace` on a byte string. -/
def trimSpace (l : Bytes) : Bytes :=
  ((l.dropWhile isSpaceByte).reverse.dropWhile isSpaceByte).reverse

/-- The overall input list (`warmup.go:63-80`): positional arguments first,
then the trimmed non-blank lines of the `--file` input appended in order. -/
def collectPaths (args fileLines : List Bytes) : List Bytes :=
  args ++ (fileLines.map trimSpace).filter (fun l => decide (l ≠ []))

/-- Observable outcome of a successful `warmup` run. -/
structure RunReport where
  mountRoot : Option RevPath
  batches : List (List Bytes)
  frames : List Bytes
  warned : List Bytes
  warmed : Nat
deriving DecidableEq

/-- The part of `warmup` after input collection (`warmup.go:86-147`):
an empty list is a successful no-op (`warmup.go:81-84`); otherwise the
mount root is resolved from the first path (any resolution failure is
fatal), and the batching loop runs over the whole list with capacity
`batchMax`, encoding one frame per flushed batch. -/
def warmupWithPaths (o : Oracle) (paths : List Bytes) (threads : Nat)
    (background : Bool) : Except WarmupError RunReport :=
  match paths with
  | [] => .ok ⟨none, [], [], [], 0⟩
  | first :: rest =>
    match resolveMountRoot o first with
    | .error e => .error e
    | .ok root =>
      let mp := renderPath root
      let bs := sentBatches batchMax mp (first :: rest)
      .ok ⟨some root, bs,
        bs.map (fun b => sendCommandFrame b b.length threads background),
        skippedPaths mp (first :: rest), ((bs.map List.length).sum)⟩

/-- The `warmup` action (`warmup.go:62-148`): collect the input paths from
the arguments and the input file, then resolve and batch. -/
def warmupRun (o : Oracle) (args fileLines : List Bytes) (threads : Nat)
    (background : Bool) : Except WarmupError RunReport :=
  warmupWithPaths o (collectPaths args fileLines) threads background

/-- Concrete filesystem for the chain scenario of the spec: `/a/b` has
inode 1, `/a/b/c` has inode 5, and resolution starts from the file
`/a/b/c/file.txt`. -/
def chainOracle : Oracle where
  absOf := fun s =>
    if s = strBytes "/a/b/c/file.txt" then
      some [strBytes "file.txt", strBytes "c", strBytes "b", strBytes "a"]
    else none
  isDir := fun r =>
    if r = [strBytes "file.txt", strBytes "c", strBytes "b", strBytes "a"] then
      some false
    else none
  getInode := fun r =>
    if r = [strBytes "b", strBytes "a"] then some 1
    else if r = [strBytes "c", strBytes "b", strBytes "a"] then some 5
    else none

/-- Concrete filesystem where `/mnt/jfs` is a JuiceFS mount root (inode 1)
and `/mnt/jfs/x` is a file inside it. -/
def demoOracle : Oracle where
  absOf := fun s =>
    if s = strBytes "/mnt/jfs/x" then
      some [strBytes "x", strBytes "jfs", strBytes "mnt"]
    else none
  isDir := fun r =>
    if r = [strBytes "x", strBytes "jfs", strBytes "mnt"] then some false
    else none
  getInode := fun r =>
    if r = [strBytes "jfs", strBytes "mnt"] then some 1 else some 2

/-- Concrete filesystem where `filepath.Abs` fails on every path. -/
def failOracle : Oracle where
  absOf := fun _ => none
  isDir := fun _ => some true
  getInode := fun _ => some 1

/-- The report produced by a `warmup` run over `demoOracle` with inputs
`/mnt/jfs/x` and `/other`: one batch `["/x"]`, one skip warning. -/
def demoReport : RunReport where
  mountRoot := some [strBytes "jfs", strBytes "mnt"]
  batches := [[strBytes "/x"]]
  frames := [sendCommandFrame [strBytes "/x"] 1 50 false]
  warned := [strBytes "/other"]
  warmed := 1

/-! ## Helper lemmas -/

theorem decLE_le32 (n : Nat) : decLE (le32 n) = n % 2 ^ 32 := by
  simp [decLE, le32]
  omega

theorem decLE_le16 (n : Nat) : decLE (le16 n) = n % 2 ^ 16 := by
  simp [decLE, le16]
  omega

theorem le32_append_take (n : Nat) (rest : Bytes) :
    (le32 n ++ rest).take 4 = le32 n := by
  simp [le32]

theorem le32_append_drop (n : Nat) (rest : Bytes) :
    (le32 n ++ rest).drop 4 = rest := by
  simp [le32]

theorem splitNl_ne_nil (l : Bytes) : splitNl l ≠ [] := by
  induction l with
  | nil => simp [splitNl]
  | cons b rest ih =>
    by_cases hb : b = nlByte
    · simp [splitNl, hb]
    · simp only [splitNl, if_neg hb]
      cases h : splitNl rest <;> simp

theorem splitNl_no_nl : ∀ b : Bytes, nlByte ∉ b → splitNl b = [b] := by
  intro b
  induction b with
  | nil => intro _; rfl
  | cons x xs ih =>
    intro hx
    have hxne : x ≠ nlByte := fun h => hx (by simp [h])
    have hxs : nlByte ∉ xs := fun h => hx (by simp [h])
    simp only [splitNl, if_neg hxne, ih hxs]

theorem splitNl_append_nl : ∀ b rest : Bytes, nlByte ∉ b →
    splitNl (b ++ nlByte :: rest) = b :: splitNl rest := by
  intro b
  induction b with
  | nil => intro rest _; simp [splitNl]
  | cons x xs ih =>
    intro rest hx
    have hxne : x ≠ nlByte := fun h => hx (by simp [h])
    have hxs : nlByte ∉ xs := fun h => hx (by simp [h])
    simp only [List.cons_append, splitNl, if_neg hxne]
    rw [show xs.append (nlByte :: rest) = xs ++ nlByte :: rest from rfl,
      ih rest hxs]

theorem splitNl_joinNl : ∀ bs : List Bytes, bs ≠ [] →
    (∀ b ∈ bs, nlByte ∉ b) → splitNl (joinNl bs) = bs
  | [], h, _ => absurd rfl h
  | [b], _, hnl => by
    simpa [joinNl] using splitNl_no_nl b (hnl b (by simp))
  | b :: b2 :: bs, _, hnl => by
    have ih := splitNl_joinNl (b2 :: bs) (by simp)
      (fun x hx => hnl x (List.mem_cons_of_mem b hx))
    simp only [joinNl, splitNl_append_nl b _ (hnl b (by simp)), ih]

theorem warmupGo_unfold_cons (K : Nat) (mp p : Bytes) (ps batch : List Bytes) :
    warmupGo K mp (p :: ps) batch =
      (if mp.isPrefixOf p then
        (if K ≤ (batch ++ [p.drop mp.length]).length then
          (batch ++ [p.drop mp.length]) :: warmupGo K mp ps []
        else warmupGo K mp ps (batch ++ [p.drop mp.length]))
      else warmupGo K mp ps batch) := rfl

theorem warmupGo_nil (K : Nat) (mp : Bytes) (batch : List Bytes) :
    warmupGo K mp [] batch = if 0 < batch.length then [batch] else [] := rfl

theorem warmupGo_cons_flush (K : Nat) (mp p : Bytes) (ps batch : List Bytes)
    (hp : mp.isPrefixOf p = true)
    (hfull : K ≤ (batch ++ [p.drop mp.length]).length) :
    warmupGo K mp (p :: ps) batch =
      (batch ++ [p.drop mp.length]) :: warmupGo K mp ps [] := by
  rw [warmupGo_unfold_cons, if_pos hp, if_pos hfull]

theorem warmupGo_cons_fill (K : Nat) (mp p : Bytes) (ps batch : List Bytes)
    (hp : mp.isPrefixOf p = true)
    (hfull : ¬ K ≤ (batch ++ [p.drop mp.length]).length) :
    warmupGo K mp (p :: ps) batch =
      warmupGo K mp ps (batch ++ [p.drop mp.length]) := by
  rw [warmupGo_unfold_cons, if_pos hp, if_neg hfull]

theorem warmupGo_cons_skip (K : Nat) (mp p : Bytes) (ps batch : List Bytes)
    (hp : ¬ mp.isPrefixOf p = true) :
    warmupGo K mp (p :: ps) batch = warmupGo K mp ps batch := by
  rw [warmupGo_unfold_cons, if_neg hp]

theorem warmupGo_spec (K : Nat) (mp : Bytes) (hK : 0 < K) :
    ∀ (ps batch : List Bytes), batch.length < K →
      (warmupGo K mp ps batch).flatten =
        batch ++ (ps.filter (fun p => mp.isPrefixOf p)).map
          (fun p => p.drop mp.length)
      ∧ ∀ b ∈ warmupGo K mp ps batch, 0 < b.length ∧ b.length ≤ K
  | [], batch, hb => by
    by_cases h : 0 < batch.length
    · refine ⟨by simp [warmupGo_nil, h], ?_⟩
      intro b hbmem
      simp only [warmupGo_nil, if_pos h, List.mem_singleton] at hbmem
      exact hbmem ▸ ⟨h, Nat.le_of_lt hb⟩
    · have hbe : batch = [] := List.length_eq_zero.mp (Nat.eq_zero_of_not_pos h)
      refine ⟨by simp [warmupGo_nil, h, hbe], ?_⟩
      intro b hbmem
      simp [warmupGo_nil, h] at hbmem
  | p :: ps, batch, hb => by
    by_cases hp : mp.isPrefixOf p
    · have hlen : (batch ++ [p.drop mp.length]).length = batch.length + 1 := by
        simp
      by_cases hfull : K ≤ (batch ++ [p.drop mp.length]).length
      · have ih := warmupGo_spec K mp hK ps [] hK
        rw [warmupGo_cons_flush K mp p ps batch hp hfull]
        constructor
        · rw [List.flatten_cons, ih.1, List.filter_cons_of_pos hp,
            List.map_cons]
          simp
        · intro b hbmem
          rcases List.mem_cons.mp hbmem with heq | hbmem
          · rw [heq]
            exact ⟨by simp, by omega⟩
          · exact ih.2 b hbmem
      · have hlt : (batch ++ [p.drop mp.length]).length < K :=
          Nat.lt_of_not_le hfull
        have ih := warmupGo_spec K mp hK ps (batch ++ [p.drop mp.length]) hlt
        rw [warmupGo_cons_fill K mp p ps batch hp hfull]
        constructor
        · rw [ih.1, List.filter_cons_of_pos hp, List.map_cons]
          simp
        · exact ih.2
    · have ih := warmupGo_spec K mp hK ps batch hb
      rw [warmupGo_cons_skip K mp p ps batch hp]
      constructor
      · rw [ih.1, List.filter_cons_of_neg (by simpa using hp)]
      · exact ih.2

theorem warmupGo_full (K : Nat) (mp : Bytes) :
    ∀ (ps batch : List Bytes), batch.length < K →
      ∀ b ∈ (warmupGo K mp ps batch).dropLast, b.length = K
  | [], batch, _ => by
    intro b hbmem
    by_cases h : 0 < batch.length <;>
      simp [warmupGo_nil, h, List.dropLast_single] at hbmem
  | p :: ps, batch, hb => by
    intro b hbmem
    by_cases hp : mp.isPrefixOf p
    · have hlen : (batch ++ [p.drop mp.length]).length = batch.length + 1 := by
        simp
      by_cases hfull : K ≤ (batch ++ [p.drop mp.length]).length
      · rw [warmupGo_cons_flush K mp p ps batch hp hfull] at hbmem
        cases hrest : warmupGo K mp ps [] with
        | nil => rw [hrest] at hbmem; simp at hbmem
        | cons r rs =>
          rw [hrest, List.dropLast_cons₂] at hbmem
          rcases List.mem_cons.mp hbmem with heq | hbmem
          · rw [heq, hlen]
            omega
          · have := warmupGo_full K mp ps [] (by simp; omega) b
            rw [hrest] at this
            exact this hbmem
      · have hlt : (batch ++ [p.drop mp.length]).length < K :=
          Nat.lt_of_not_le hfull
        rw [warmupGo_cons_fill K mp p ps batch hp hfull] at hbmem
        exact warmupGo_full K mp ps _ hlt b hbmem
    · rw [warmupGo_cons_skip K mp p ps batch hp] at hbmem
      exact warmupGo_full K mp ps batch hb b hbmem

theorem frame_decomp (batch : List Bytes) (count threads : Nat)
    (background : Bool) :
    sendCommandFrame batch count threads background =
      le32 FillCache ++
        (le32 ((4 + 3 + (joinNl (batch.take count)).length) % 2 ^ 32) ++
          (le32 ((joinNl (batch.take count)).length % 2 ^ 32) ++
            (joinNl (batch.take count) ++
              (le16 (threads % 2 ^ 16) ++
                [if background then 1 else 0])))) := by
  simp [sendCommandFrame]

theorem frame_drop12 (batch : List Bytes) (count threads : Nat)
    (background : Bool) :
    (sendCommandFrame batch count threads background).drop 12 =
      joinNl (batch.take count) ++
        (le16 (threads % 2 ^ 16) ++ [if background then 1 else 0]) := by
  rw [frame_decomp]
  rw [show (12 : Nat) = 4 + (4 + 4) by rfl, ← List.drop_drop, ← List.drop_drop]
  rw [le32_append_drop, le32_append_drop, le32_append_drop]

theorem frame_dropPaths (batch : List Bytes) (count threads : Nat)
    (background : Bool) :
    (sendCommandFrame batch count threads background).drop
        (12 + (joinNl (batch.take count)).length) =
      le16 (threads % 2 ^ 16) ++ [if background then 1 else 0] := by
  rw [← List.drop_drop, frame_drop12, List.drop_left]

/-- C1: the claim as stated fails: splitting the frame's path block on
`'\n'` does not recover a batch whose entry itself contains a `'\n'` byte
(here the single-entry batch `["a\nb"]` splits back into two entries). -/
theorem frame_layout_roundtrip_counterexample :
    splitNl (((sendCommandFrame [strBytes "a\nb"] 1 50 false).drop 12).take
        (joinNl (List.take 1 [strBytes "a\nb"])).length) ≠
      List.take 1 [strBytes "a\nb"] := by
  decide

/-- C1 (amended): for every batch selection that is non-empty and whose
entries contain no `'\n'` byte (with the path block plus 7 fitting a
`uint32`), the frame built by `sendCommand` is laid out as the 4-byte
`FillCache` code, a 4-byte payload length equal to `4 + 3 +` the path-block
byte length, a 4-byte path-block length, the path block (the entries joined
by `'\n'`), a 2-byte thread count, and a 1-byte background flag; splitting
the path block on `'\n'` recovers the original batch list. -/
theorem frame_layout_roundtrip (batch : List Bytes) (count threads : Nat)
    (background : Bool)
    (hne : batch.take count ≠ [])
    (hnl : ∀ b ∈ batch.take count, nlByte ∉ b)
    (hlen : 4 + 3 + (joinNl (batch.take count)).length < 2 ^ 32) :
    (sendCommandFrame batch count threads background).length =
      15 + (joinNl (batch.take count)).length
    ∧ decLE ((sendCommandFrame batch count threads background).take 4) =
        FillCache
    ∧ decLE (((sendCommandFrame batch count threads background).drop 4).take 4)
        = 4 + 3 + (joinNl (batch.take count)).length
    ∧ decLE (((sendCommandFrame batch count threads background).drop 8).take 4)
        = (joinNl (batch.take count)).length
    ∧ ((sendCommandFrame batch count threads background).drop 12).take
        (joinNl (batch.take count)).length = joinNl (batch.take count)
    ∧ decLE (((sendCommandFrame batch count threads background).drop
        (12 + (joinNl (batch.take count)).length)).take 2) = threads % 2 ^ 16
    ∧ (sendCommandFrame batch count threads background).drop
        (14 + (joinNl (batch.take count)).length) =
        [if background then 1 else 0]
    ∧ splitNl (((sendCommandFrame batch count threads background).drop
        12).take (joinNl (batch.take count)).length) = batch.take count := by
  refine ⟨?_, ?_, ?_, ?_, ?_, ?_, ?_, ?_⟩
  · rw [frame_decomp]
    simp [le32, le16]
    omega
  · rw [frame_decomp, le32_append_take, decLE_le32]
    decide
  · rw [frame_decomp, le32_append_drop, le32_append_take, decLE_le32]
    omega
  · rw [frame_decomp, show (8 : Nat) = 4 + 4 by rfl, ← List.drop_drop,
      le32_append_drop, le32_append_drop, le32_append_take, decLE_le32]
    omega
  · rw [frame_drop12, List.take_left]
  · rw [frame_dropPaths]
    simp [le16, decLE]
    omega
  · rw [show (14 : Nat) + (joinNl (batch.take count)).length =
      (12 + (joinNl (batch.take count)).length) + 2 by omega,
      ← List.drop_drop, frame_dropPaths]
    simp [le16]
  · rw [frame_drop12, List.take_left]
    exact splitNl_joinNl (batch.take count) hne hnl

theorem frame_layout_roundtrip_witness :
    splitNl (((sendCommandFrame [strBytes "a", strBytes "b"] 2 50 false).drop
        12).take (joinNl (List.take 2 [strBytes "a", strBytes "b"])).length) =
      List.take 2 [strBytes "a", strBytes "b"] :=
  (frame_layout_roundtrip [strBytes "a", strBytes "b"] 2 50 false (by decide)
    (by decide) (by decide)).2.2.2.2.2.2.2

/-- C9: the 2-byte thread-count field of the frame holds the requested
thread count modulo `2 ^ 16` (Go's `uint16(threads)` conversion), and the
frame is still produced in full — oversized counts are truncated on the
wire, never rejected. -/
theorem threads_field_mod (batch : List Bytes) (count threads : Nat)
    (background : Bool) :
    ((sendCommandFrame batch count threads background).drop
        (12 + (joinNl (batch.take count)).length)).take 2 =
      le16 (threads % 2 ^ 16)
    ∧ decLE (((sendCommandFrame batch count threads background).drop
        (12 + (joinNl (batch.take count)).length)).take 2) = threads % 2 ^ 16
    ∧ (sendCommandFrame batch count threads background).length =
        15 + (joinNl (batch.take count)).length := by
  have htake : ((sendCommandFrame batch count threads background).drop
      (12 + (joinNl (batch.take count)).length)).take 2 =
      le16 (threads % 2 ^ 16) := by
    rw [frame_dropPaths]
    simp [le16]
  refine ⟨htake, ?_, ?_⟩
  · rw [htake, decLE_le16]
    omega
  · rw [frame_decomp]
    simp [le32, le16]
    omega

/-- C5: for every non-background request whose frame write succeeds, the
sender issues exactly one 1-byte read after the write; a status byte of 0
yields success, any nonzero byte is a fatal failure surfacing that byte,
and an I/O error or short read (modelled as `none`) is likewise fatal. -/
theorem sync_status_byte (frame : Bytes) (readResult : Option Nat) :
    (sendCommandEffect frame true false readResult).1 =
      [ChanOp.write frame, ChanOp.read]
    ∧ (readResult = some 0 →
        (sendCommandEffect frame true false readResult).2 = SendResult.success)
    ∧ (∀ b, readResult = some b → b ≠ 0 →
        (sendCommandEffect frame true false readResult).2 =
          SendResult.remoteFatal b)
    ∧ (readResult = none →
        (sendCommandEffect frame true false readResult).2 =
          SendResult.readFatal) := by
  refine ⟨?_, ?_, ?_, ?_⟩
  · cases readResult <;> simp [sendCommandEffect]
  · intro h
    rw [h]
    simp [sendCommandEffect]
  · intro b h hb
    rw [h]
    simp [sendCommandEffect, hb]
  · intro h
    rw [h]
    simp [sendCommandEffect]

theorem sync_status_byte_witness :
    (sendCommandEffect [1] true false (some 3)).1 =
      [ChanOp.write [1], ChanOp.read]
    ∧ (sendCommandEffect [1] true false (some 3)).2 = SendResult.remoteFatal 3 :=
  ⟨(sync_status_byte [1] (some 3)).1,
    (sync_status_byte [1] (some 3)).2.2.1 3 rfl (by decide)⟩

/-- C6: for every background-mode request whose write succeeds, the call
performs only the frame write — no read is issued — and returns success
regardless of any would-be status byte. -/
theorem background_no_read (frame : Bytes) (readResult : Option Nat) :
    sendCommandEffect frame true true readResult =
      ([ChanOp.write frame], SendResult.success) := by
  simp [sendCommandEffect]

/-- C7: the claim as stated fails: with mount root `/mnt/jfs` the code
strips `len("/mnt/jfs")` bytes from `/mnt/jfs/x`, leaving `/x` — not `x` —
so the single sent batch is not `["x", "y"]`. -/
theorem example_scenario_counterexample :
    sentBatches 2 (strBytes "/mnt/jfs")
        [strBytes "/mnt/jfs/x", strBytes "/mnt/jfs/y", strBytes "/other/z"] ≠
      [[strBytes "x", strBytes "y"]] := by
  decide

/-- C7 (amended): for the input paths `/mnt/jfs/x`, `/mnt/jfs/y`,
`/other/z` with resolved mount root `/mnt/jfs` and batch capacity 2,
exactly one batch is sent and it is `["/x", "/y"]` (the mount-root prefix
stripped from each entry, keeping the separating slash), `/other/z` is
skipped with a warning, and the reported warmed-path count is 2. -/
theorem example_scenario :
    sentBatches 2 (strBytes "/mnt/jfs")
        [strBytes "/mnt/jfs/x", strBytes "/mnt/jfs/y", strBytes "/other/z"] =
      [[strBytes "/x", strBytes "/y"]]
    ∧ skippedPaths (strBytes "/mnt/jfs")
        [strBytes "/mnt/jfs/x", strBytes "/mnt/jfs/y", strBytes "/other/z"] =
      [strBytes "/other/z"]
    ∧ warmedCount 2 (strBytes "/mnt/jfs")
        [strBytes "/mnt/jfs/x", strBytes "/mnt/jfs/y", strBytes "/other/z"] =
      2 := by
  decide

/-- C2: when every input path lies under the mount root, the batching loop
partitions the prefix-stripped paths, in input order, into flushed batches
that are never empty and never exceed `batchMax`; every batch except
possibly the last is flushed exactly at capacity, and concatenating the
batches in send order recovers the stripped input list exactly. -/
theorem batching_partition (mp : Bytes) (paths : List Bytes)
    (h : ∀ p ∈ paths, mp.isPrefixOf p = true) :
    (sentBatches batchMax mp paths).flatten =
      paths.map (fun p => p.drop mp.length)
    ∧ (∀ b ∈ sentBatches batchMax mp paths, 0 < b.length ∧ b.length ≤ batchMax)
    ∧ (∀ b ∈ (sentBatches batchMax mp paths).dropLast, b.length = batchMax) := by
  have hK : 0 < batchMax := by decide
  have hspec := warmupGo_spec batchMax mp hK paths [] hK
  have hfilter : paths.filter (fun p => mp.isPrefixOf p) = paths :=
    List.filter_eq_self.mpr h
  refine ⟨?_, hspec.2, warmupGo_full batchMax mp paths [] hK⟩
  rw [show sentBatches batchMax mp paths = warmupGo batchMax mp paths []
    from rfl, hspec.1, hfilter]
  simp

theorem batching_partition_witness :
    (sentBatches batchMax (strBytes "/m")
        [strBytes "/m/a", strBytes "/m/b"]).flatten =
      List.map (fun p => p.drop (strBytes "/m").length)
        [strBytes "/m/a", strBytes "/m/b"] :=
  (batching_partition (strBytes "/m") [strBytes "/m/a", strBytes "/m/b"]
    (by decide)).1

theorem mountWalk_unfold_cons (g : RevPath → Option Nat) (c : Bytes)
    (rest : RevPath) :
    mountWalk g (c :: rest) =
      (match g (c :: rest) with
        | none => Except.error (WarmupError.inodeError (c :: rest))
        | some i =>
          if i = 1 then Except.ok (c :: rest) else mountWalk g rest) := rfl

theorem mountWalk_notMounted (g : RevPath → Option Nat) :
    ∀ p : RevPath, (∀ s, s <:+ p → s ≠ [] → ∃ i, g s = some i ∧ i ≠ 1) →
      mountWalk g p = .error .notMounted
  | [], _ => rfl
  | c :: rest, h => by
    obtain ⟨i, hi, hne⟩ := h (c :: rest) (List.suffix_refl _) (by simp)
    rw [mountWalk_unfold_cons, hi]
    simp only [if_neg hne]
    exact mountWalk_notMounted g rest
      (fun s hs hsne => h s (hs.trans (List.suffix_cons c rest)) hsne)

theorem mountWalk_ok (g : RevPath → Option Nat) :
    ∀ (p r : RevPath), mountWalk g p = .ok r →
      g r = some 1 ∧ r <:+ p ∧
        ∀ s, s <:+ p → r.length < s.length → ∃ i, g s = some i ∧ i ≠ 1
  | [], r, h => by simp [mountWalk] at h
  | c :: rest, r, h => by
    rw [mountWalk_unfold_cons] at h
    cases hg : g (c :: rest) with
    | none => rw [hg] at h; simp at h
    | some i =>
      rw [hg] at h
      have h2 : (if i = 1 then Except.ok (c :: rest)
          else mountWalk g rest) = Except.ok r := h
      by_cases hi : i = 1
      · rw [if_pos hi] at h2
        have hr : c :: rest = r := by simpa using h2
        subst hr
        refine ⟨by rw [hg, hi], List.suffix_refl _, ?_⟩
        intro s hs hlen
        have := hs.length_le
        omega
      · rw [if_neg hi] at h2
        obtain ⟨h1, h2, h3⟩ := mountWalk_ok g rest r h2
        refine ⟨h1, h2.trans (List.suffix_cons c rest), ?_⟩
        intro s hs hlen
        rcases List.suffix_cons_iff.mp hs with heq | hs2
        · exact heq ▸ ⟨i, hg, hi⟩
        · exact h3 s hs2 hlen

/-- C3: mount resolution starts from the absolute start path (itself if a
directory, else its parent), queries each candidate's inode walking up, and
returns the first (deepest) candidate with inode 1; if every ancestor up to
the filesystem root lacks inode 1 the walk fails with the not-mounted
error.  In particular, in the chain where `/a/b` has inode 1 and `/a/b/c`
does not, resolving from the file `/a/b/c/file.txt` returns `/a/b`. -/
theorem mount_resolution (g : RevPath → Option Nat) (p : RevPath) :
    ((∀ s, s <:+ p → s ≠ [] → ∃ i, g s = some i ∧ i ≠ 1) →
      mountWalk g p = .error .notMounted)
    ∧ (∀ r, mountWalk g p = .ok r →
        g r = some 1 ∧ r <:+ p ∧
          ∀ s, s <:+ p → r.length < s.length → ∃ i, g s = some i ∧ i ≠ 1)
    ∧ resolveMountRoot chainOracle (strBytes "/a/b/c/file.txt") =
        .ok [strBytes "b", strBytes "a"] :=
  ⟨mountWalk_notMounted g p, fun r h => mountWalk_ok g p r h, by rfl⟩

theorem mount_resolution_witness :
    chainOracle.getInode [strBytes "b", strBytes "a"] = some 1
    ∧ [strBytes "b", strBytes "a"] <:+
        [strBytes "c", strBytes "b", strBytes "a"] :=
  have h := (mount_resolution chainOracle.getInode
    [strBytes "c", strBytes "b", strBytes "a"]).2.1
    [strBytes "b", strBytes "a"] (by rfl)
  ⟨h.1, h.2.1⟩

theorem warmupRun_eq (o : Oracle) (args fileLines : List Bytes)
    (threads : Nat) (background : Bool) :
    warmupRun o args fileLines threads background =
      warmupWithPaths o (collectPaths args fileLines) threads background := rfl

theorem warmupRun_empty (o : Oracle) (args fileLines : List Bytes)
    (threads : Nat) (background : Bool)
    (h : collectPaths args fileLines = []) :
    warmupRun o args fileLines threads background =
      .ok ⟨none, [], [], [], 0⟩ := by
  rw [warmupRun_eq, h]
  rfl

theorem warmupRun_cons_error (o : Oracle) (args fileLines : List Bytes)
    (threads : Nat) (background : Bool) (first : Bytes) (rest : List Bytes)
    (e : WarmupError) (h : collectPaths args fileLines = first :: rest)
    (he : resolveMountRoot o first = .error e) :
    warmupRun o args fileLines threads background = .error e := by
  rw [warmupRun_eq, h]
  simp only [warmupWithPaths]
  rw [he]

theorem warmupRun_cons_ok (o : Oracle) (args fileLines : List Bytes)
    (threads : Nat) (background : Bool) (first : Bytes) (rest : List Bytes)
    (root : RevPath) (h : collectPaths args fileLines = first :: rest)
    (hroot : resolveMountRoot o first = .ok root) :
    warmupRun o args fileLines threads background =
      .ok ⟨some root, sentBatches batchMax (renderPath root) (first :: rest),
        (sentBatches batchMax (renderPath root) (first :: rest)).map
          (fun b => sendCommandFrame b b.length threads background),
        skippedPaths (renderPath root) (first :: rest),
        ((sentBatches batchMax (renderPath root)
          (first :: rest)).map List.length).sum⟩ := by
  rw [warmupRun_eq, h]
  simp only [warmupWithPaths]
  rw [hroot]

/-- C10: mount resolution depends only on the first path of the combined
input list (arguments first, then file lines): if resolving the first path
fails in any way the whole run fails with that error — whatever the later
paths are — and if it succeeds the run's outcome is entirely determined by
the resolved root and the path list. -/
theorem first_path_resolution (o : Oracle) (args fileLines : List Bytes)
    (threads : Nat) (background : Bool) (first : Bytes) (rest : List Bytes)
    (h : collectPaths args fileLines = first :: rest) :
    (∀ e, resolveMountRoot o first = .error e →
      warmupRun o args fileLines threads background = .error e)
    ∧ (∀ root, resolveMountRoot o first = .ok root →
      warmupRun o args fileLines threads background =
        .ok ⟨some root, sentBatches batchMax (renderPath root) (first :: rest),
          (sentBatches batchMax (renderPath root) (first :: rest)).map
            (fun b => sendCommandFrame b b.length threads background),
          skippedPaths (renderPath root) (first :: rest),
          ((sentBatches batchMax (renderPath root)
            (first :: rest)).map List.length).sum⟩) :=
  ⟨fun e he => warmupRun_cons_error o args fileLines threads background
      first rest e h he,
    fun root hroot => warmupRun_cons_ok o args fileLines threads background
      first rest root h hroot⟩

theorem first_path_resolution_witness :
    warmupRun failOracle [strBytes "/bad", strBytes "/mnt/jfs/x"] [] 50 false =
      .error .absError :=
  (first_path_resolution failOracle [strBytes "/bad", strBytes "/mnt/jfs/x"]
    [] 50 false (strBytes "/bad") [strBytes "/mnt/jfs/x"] rfl).1
    .absError rfl

/-- C8: with no positional arguments and no non-blank lines in the input
file, the collected path list is empty and the run is a successful no-op:
it returns `ok` with no batches, no frames, no warnings and a zero count,
for every filesystem oracle (so no mount resolution or channel I/O can
influence it). -/
theorem empty_input_noop (o : Oracle) (args fileLines : List Bytes)
    (threads : Nat) (background : Bool) (hargs : args = [])
    (hlines : ∀ l ∈ fileLines, trimSpace l = []) :
    collectPaths args fileLines = []
    ∧ warmupRun o args fileLines threads background =
        .ok ⟨none, [], [], [], 0⟩ := by
  have hc : collectPaths args fileLines = [] := by
    rw [collectPaths, hargs, List.nil_append]
    rw [List.filter_eq_nil_iff.mpr ?_]
    intro l hl
    obtain ⟨x, hx, rfl⟩ := List.mem_map.mp hl
    simp [hlines x hx]
  exact ⟨hc, warmupRun_empty o args fileLines threads background hc⟩

theorem empty_input_noop_witness :
    collectPaths [] [strBytes "  ", strBytes ""] = []
    ∧ warmupRun failOracle [] [strBytes "  ", strBytes ""] 50 true =
        .ok ⟨none, [], [], [], 0⟩ :=
  empty_input_noop failOracle [] [strBytes "  ", strBytes ""] 50 true rfl
    (by decide)

/-- C4: in any successful run, the entries of the sent batches are exactly
the remainders (after stripping the mount-root prefix) of the input paths
that lie under the resolved mount root, in order; every input path outside
the root appears in the warning list instead, and its presence never aborts
the run — each batch entry comes from some under-root input path. -/
theorem batch_entries_under_root (o : Oracle) (args fileLines : List Bytes)
    (threads : Nat) (background : Bool) (report : RunReport) (root : RevPath)
    (h : warmupRun o args fileLines threads background = .ok report)
    (hr : report.mountRoot = some root) :
    report.batches.flatten =
      ((collectPaths args fileLines).filter
        (fun p => (renderPath root).isPrefixOf p)).map
        (fun p => p.drop (renderPath root).length)
    ∧ report.warned = (collectPaths args fileLines).filter
        (fun p => !((renderPath root).isPrefixOf p))
    ∧ ∀ b ∈ report.batches, ∀ e ∈ b, ∃ p ∈ collectPaths args fileLines,
        (renderPath root).isPrefixOf p = true ∧
          e = p.drop (renderPath root).length := by
  cases hc : collectPaths args fileLines with
  | nil =>
    rw [warmupRun_empty o args fileLines threads background hc] at h
    have hrep : (⟨none, [], [], [], 0⟩ : RunReport) = report :=
      Except.ok.inj h
    rw [← hrep] at hr
    simp at hr
  | cons first rest =>
    cases hres : resolveMountRoot o first with
    | error e =>
      rw [warmupRun_cons_error o args fileLines threads background
        first rest e hc hres] at h
      simp at h
    | ok root2 =>
      rw [warmupRun_cons_ok o args fileLines threads background
        first rest root2 hc hres] at h
      have hrep := Except.ok.inj h
      rw [← hrep] at hr ⊢
      have hroot2 : root2 = root := by simpa using hr
      subst hroot2
      have hK : 0 < batchMax := by decide
      have hspec := warmupGo_spec batchMax (renderPath root2) hK
        (first :: rest) [] hK
      refine ⟨?_, rfl, ?_⟩
      · exact hspec.1.trans (by rw [List.nil_append])
      · intro b hb e he
        have hmem : e ∈ (sentBatches batchMax (renderPath root2)
            (first :: rest)).flatten :=
          List.mem_flatten.mpr ⟨b, hb, he⟩
        rw [show sentBatches batchMax (renderPath root2) (first :: rest) =
          warmupGo batchMax (renderPath root2) (first :: rest) [] from rfl,
          hspec.1, List.nil_append] at hmem
        obtain ⟨p, hpf, hpe⟩ := List.mem_map.mp hmem
        obtain ⟨hpmem, hppre⟩ := List.mem_filter.mp hpf
        exact ⟨p, hpmem, hppre, hpe.symm⟩

theorem batch_entries_under_root_witness :
    demoReport.batches.flatten =
      ((collectPaths [strBytes "/mnt/jfs/x", strBytes "/other"] []).filter
        (fun p => (renderPath [strBytes "jfs", strBytes "mnt"]).isPrefixOf p)).map
        (fun p => p.drop (renderPath [strBytes "jfs", strBytes "mnt"]).length) :=
  (batch_entries_under_root demoOracle [strBytes "/mnt/jfs/x", strBytes "/other"]
    [] 50 false demoReport [strBytes "jfs", strBytes "mnt"] (by rfl) (by rfl)).1

end Warmup
